import Mathlib

/-!
Verification of the Vulkan hello-triangle application in `src/main.rs`
(repository MrDiver/VulkanExperiments).

The shallow embedding below models the device-selection and swapchain
negotiation logic of `HelloTriangleApplication`:

* `find_queue_family_ids` (main.rs 187-210): the queue-family resolver loop;
* `is_device_suitable` (main.rs 231-256): device suitability predicate;
* `pick_physical_device` (main.rs 258-265): first-suitable device selection;
* `create_logical_device` (main.rs 267-308): queue creation and handle
  assignment, with the `HashSet` iteration order made an explicit
  nondeterministic parameter;
* `choose_swap_surface_format` (main.rs 310-320), where a `none` result
  models the panic of indexing an empty vector;
* `choose_swap_present_modes` (main.rs 322-328);
* `choose_swap_extent` (main.rs 330-346) with the top level `clamp`;
* the image-count and sharing-mode negotiation inside `create_swap_chain`
  (main.rs 365-372 and 385-397).

Queue families are identified by their index in the reported list (vulkano's
`QueueFamily::id()`), device-side surface interaction (per-family surface
support, surface formats, present modes) is folded into the device model, so
each quantification over a device below quantifies over a device together
with a surface.
-/

/-- One entry of `physical_device.queue_families()`: whether the family
supports graphics submission and presentation to the fixed surface. -/
structure QueueFamily where
  supports_graphics : Bool
  supports_surface : Bool
deriving DecidableEq, Repr

/-- The `QueueFamilyIndices` struct of main.rs 36-39. -/
structure QueueFamilyIndices where
  graphics_family_id : Option Nat
  presentation_family_id : Option Nat
deriving DecidableEq, Repr

/-- Models `QueueFamilyIndices::is_complete` (main.rs 49-51). -/
def QueueFamilyIndices.is_complete (s : QueueFamilyIndices) : Bool :=
  s.graphics_family_id.isSome && s.presentation_family_id.isSome

/-- The loop body of `find_queue_family_ids` (main.rs 194-207): each visited
family overwrites the graphics id if it supports graphics and the
presentation id if it supports the surface; the loop breaks as soon as the
accumulated `QueueFamilyIndices` is complete. `i` is the id of the family at
the head of the remaining list. -/
def findQueueLoop : List QueueFamily → Nat → QueueFamilyIndices → QueueFamilyIndices
  | [], _, s => s
  | f :: rest, i, s =>
    let s1 : QueueFamilyIndices :=
      { graphics_family_id :=
          if f.supports_graphics then some i else s.graphics_family_id
        presentation_family_id :=
          if f.supports_surface then some i else s.presentation_family_id }
    if s1.is_complete then s1 else findQueueLoop rest (i + 1) s1

/-- Models `HelloTriangleApplication::find_queue_family_ids` (main.rs 187-210). -/
def find_queue_family_ids (fams : List QueueFamily) : QueueFamilyIndices :=
  findQueueLoop fams 0 ⟨none, none⟩

/-- Models `vulkano::device::physical::PhysicalDeviceType` (the variants
relevant to `is_device_suitable`). -/
inductive PhysicalDeviceType where
  | IntegratedGpu : PhysicalDeviceType
  | DiscreteGpu : PhysicalDeviceType
  | VirtualGpu : PhysicalDeviceType
  | Cpu : PhysicalDeviceType
  | Other : PhysicalDeviceType
deriving DecidableEq, Repr

/-- Models `vulkano::format::Format` (the variants relevant to
`choose_swap_surface_format`). -/
inductive Format where
  | B8G8R8A8_SRGB : Format
  | B8G8R8A8_UNORM : Format
  | R8G8B8A8_SRGB : Format
  | R8G8B8A8_UNORM : Format
deriving DecidableEq, Repr

/-- Models `vulkano::swapchain::ColorSpace` (the variants relevant to
`choose_swap_surface_format`). -/
inductive ColorSpace where
  | SrgbNonLinear : ColorSpace
  | DisplayP3NonLinear : ColorSpace
  | ExtendedSrgbLinear : ColorSpace
deriving DecidableEq, Repr

/-- Models `vulkano::swapchain::PresentMode`. -/
inductive PresentMode where
  | Immediate : PresentMode
  | Mailbox : PresentMode
  | Fifo : PresentMode
  | FifoRelaxed : PresentMode
deriving DecidableEq, Repr

/-- A physical device as observed through a fixed surface: everything
`is_device_suitable` reads. `khr_swapchain` is the corresponding field of
`physical_device.supported_extensions()`; `formats` and `present_modes` are
what `query_swap_chain_support` (main.rs 212-229) returns for this device
and surface. -/
structure PhysicalDeviceModel where
  device_type : PhysicalDeviceType
  khr_swapchain : Bool
  queue_families : List QueueFamily
  formats : List (Format × ColorSpace)
  present_modes : List PresentMode
deriving DecidableEq, Repr

/-- Models `HelloTriangleApplication::is_device_suitable` (main.rs 231-256). -/
def is_device_suitable (d : PhysicalDeviceModel) : Bool :=
  let queue_family_ids := find_queue_family_ids d.queue_families
  let swap_chain_supported :=
    if d.khr_swapchain then !d.formats.isEmpty && !d.present_modes.isEmpty
    else false
  (d.device_type == PhysicalDeviceType.DiscreteGpu)
    && swap_chain_supported
    && queue_family_ids.is_complete
    && d.khr_swapchain

/-- The `filter(is_device_suitable).next()` scan of `pick_physical_device`
(main.rs 258-265); `i` is the enumeration index of the head device, and the
result is `PhysicalDevice::index()` of the first suitable device. -/
def pickLoop : List PhysicalDeviceModel → Nat → Option Nat
  | [], _ => none
  | d :: rest, i =>
    if is_device_suitable d then some i else pickLoop rest (i + 1)

/-- Models `HelloTriangleApplication::pick_physical_device` (main.rs 258-265);
`none` models the `expect("No Physical device found")` panic. -/
def pick_physical_device (devices : List PhysicalDeviceModel) : Option Nat :=
  pickLoop devices 0

/-- The iteration order of the Rust `HashSet<u32>` built from
`vec![graphics_family_id, presentation_family_id]` in
`create_logical_device` (main.rs 277-282): some unspecified enumeration of
exactly the distinct elements of that vector. -/
def isHashSetOrder (g p : Nat) (order : List Nat) : Prop :=
  order.Nodup ∧ ∀ x, x ∈ order ↔ (x = g ∨ x = p)

/-- The queue retrieval of `create_logical_device` (main.rs 284-307):
one queue is created per family in `order` (each queue is identified here by
the family id it belongs to, and `Device::new` yields queues in
`queue_create_infos` order); the first queue becomes `graphics_queue`
(`none` models the `unwrap` panic on an empty iterator) and the second
becomes `present_queue`, defaulting to the graphics queue. -/
def create_logical_device (order : List Nat) : Option (Nat × Nat) :=
  match order with
  | [] => none
  | q0 :: rest => some (q0, rest.headD q0)

/-- Models `HelloTriangleApplication::choose_swap_surface_format` (main.rs
310-320): first matching preferred pair, else element 0; `none` models the
index-out-of-bounds panic on an empty vector. -/
def choose_swap_surface_format (available_formats : List (Format × ColorSpace)) :
    Option (Format × ColorSpace) :=
  match available_formats.find? fun format =>
      format.1 == Format.B8G8R8A8_SRGB && format.2 == ColorSpace.SrgbNonLinear with
  | some f => some f
  | none => available_formats[0]?

/-- Models `HelloTriangleApplication::choose_swap_present_modes` (main.rs 322-328). -/
def choose_swap_present_modes (available_modes : List PresentMode) : PresentMode :=
  (available_modes.find? fun mode => mode == PresentMode.Mailbox).getD PresentMode.Fifo

/-- The free function `clamp` (main.rs 32-34). -/
def clamp (val mn mx : Nat) : Nat :=
  max (min val mx) mn

/-- Models `HelloTriangleApplication::choose_swap_extent` (main.rs 330-346):
`width`/`height` are the window's inner size; each dimension is clamped by
the corresponding component of the capability extents. -/
def choose_swap_extent (width height : Nat) (min_image_extent max_image_extent : Nat × Nat) :
    Nat × Nat :=
  (clamp width min_image_extent.1 max_image_extent.1,
   clamp height min_image_extent.2 max_image_extent.2)

/-- The image-count negotiation in `create_swap_chain` (main.rs 365-372):
`max_image_count = none` is vulkano's encoding of an absent/zero maximum. -/
def negotiated_image_count (min_image_count : Nat) (max_image_count : Option Nat) : Nat :=
  let m := min_image_count + 1
  if max_image_count.isSome && decide (m > max_image_count.getD 0) then
    max_image_count.getD 0
  else m

/-- Models `vulkano::sync::Sharing` with the concurrent family-id list inlined. -/
inductive Sharing where
  | Exclusive : Sharing
  | Concurrent : List Nat → Sharing
deriving DecidableEq, Repr

/-- The sharing-mode negotiation in `create_swap_chain` (main.rs 385-397),
applied to the already-unwrapped graphics and presentation family ids. -/
def image_sharing (g p : Nat) : Sharing :=
  if g = p then Sharing.Exclusive
  else Sharing.Concurrent [g, p]

/-- Value of `supports_graphics` of the family with id `i`, `false` out of
range: index-level view of the queue family list used to state properties of
the resolver. -/
def graphAt (fams : List QueueFamily) (i : Nat) : Bool :=
  match fams.get? i with
  | some f => f.supports_graphics
  | none => false

/-- Value of `supports_surface` of the family with id `i`, `false` out of
range. -/
def presAt (fams : List QueueFamily) (i : Nat) : Bool :=
  match fams.get? i with
  | some f => f.supports_surface
  | none => false

/-- Holds when `o` is the position of the last `capAt`-capable index strictly below
`n`, or `none` if there is none: the invariant maintained by the overwriting
scan of `find_queue_family_ids`. -/
def lastCapBefore (capAt : Nat → Bool) (o : Option Nat) (n : Nat) : Prop :=
  match o with
  | none => ∀ m, m < n → capAt m = false
  | some j => j < n ∧ capAt j = true ∧ ∀ m, j < m → m < n → capAt m = false

lemma not_isEmpty_iff_ne_nil {α : Type} (l : List α) : (!l.isEmpty) = true ↔ l ≠ [] := by
  cases l <;> simp

/-- C2: `is_device_suitable` returns `true` iff the device type is a discrete
GPU, the `khr_swapchain` extension is supported, the queried swapchain
support has at least one format and at least one present mode, and the
resolved `QueueFamilyIndices` is complete; failing any single condition
yields `false`. -/
theorem is_device_suitable_iff (d : PhysicalDeviceModel) :
    is_device_suitable d = true ↔
      (d.device_type = PhysicalDeviceType.DiscreteGpu ∧
       d.khr_swapchain = true ∧
       d.formats ≠ [] ∧
       d.present_modes ≠ [] ∧
       (find_queue_family_ids d.queue_families).is_complete = true) := by
  cases hk : d.khr_swapchain with
  | false => simp [is_device_suitable, hk]
  | true =>
    simp [is_device_suitable, hk, Bool.and_eq_true, not_isEmpty_iff_ne_nil]
    tauto

/-- C5: the negotiated swapchain image count is `min_image_count + 1` when no
finite maximum is reported, and `min (min_image_count + 1) max_image_count`
when one is; in particular `min = 2, max = 3` yields `3`, and `min = 2` with
an unbounded maximum yields `3`. -/
theorem negotiated_image_count_spec :
    (∀ min_count : Nat, negotiated_image_count min_count none = min_count + 1) ∧
    (∀ min_count max_count : Nat,
      negotiated_image_count min_count (some max_count) = min (min_count + 1) max_count) ∧
    negotiated_image_count 2 (some 3) = 3 ∧
    negotiated_image_count 2 none = 3 := by
  refine ⟨fun _ => rfl, fun min_count max_count => ?_, rfl, rfl⟩
  by_cases h : min_count + 1 > max_count
  · rw [Nat.min_def, if_neg (by omega)]
    simp [negotiated_image_count, h]
  · rw [Nat.min_def, if_pos (by omega)]
    simp [negotiated_image_count, h]

/-- C8: the negotiated sharing mode is exclusive iff the graphics family
index equals the present family index; when they differ it is concurrent,
listing exactly the graphics family first and the present family second. -/
theorem image_sharing_spec (g p : Nat) :
    (image_sharing g p = Sharing.Exclusive ↔ g = p) ∧
    (g ≠ p → image_sharing g p = Sharing.Concurrent [g, p]) := by
  constructor
  · constructor
    · intro h
      by_contra hne
      simp [image_sharing, hne] at h
    · intro h
      simp [image_sharing, h]
  · intro h
    simp [image_sharing, h]

theorem image_sharing_spec_witness :
    image_sharing 0 1 = Sharing.Concurrent [0, 1] :=
  (image_sharing_spec 0 1).2 (by decide)

/-- C9: the present-mode chooser returns `Mailbox` whenever `Mailbox` occurs
in the supported list and `Fifo` otherwise (in particular on the empty
list), so the result is always `Mailbox` or `Fifo`. -/
theorem choose_swap_present_modes_spec (l : List PresentMode) :
    (PresentMode.Mailbox ∈ l → choose_swap_present_modes l = PresentMode.Mailbox) ∧
    (PresentMode.Mailbox ∉ l → choose_swap_present_modes l = PresentMode.Fifo) ∧
    (choose_swap_present_modes l = PresentMode.Mailbox ∨
     choose_swap_present_modes l = PresentMode.Fifo) := by
  cases hf : l.find? fun mode => mode == PresentMode.Mailbox with
  | none =>
    rw [List.find?_eq_none] at hf
    refine ⟨fun hmem => absurd (hf _ hmem) (by simp), fun _ => ?_, Or.inr ?_⟩ <;>
      simp [choose_swap_present_modes, List.find?_eq_none.mpr hf]
  | some x =>
    have hx : x = PresentMode.Mailbox := by simpa using List.find?_some hf
    subst hx
    have hres : choose_swap_present_modes l = PresentMode.Mailbox := by
      simp [choose_swap_present_modes, hf]
    exact ⟨fun _ => hres, fun hnm => absurd (List.mem_of_find?_eq_some hf) hnm, Or.inl hres⟩

theorem choose_swap_present_modes_spec_witness :
    choose_swap_present_modes [PresentMode.Fifo] = PresentMode.Fifo :=
  (choose_swap_present_modes_spec [PresentMode.Fifo]).2.1 (by decide)

/-- C6: each component of the chosen swapchain extent is independently
clamped into the corresponding `[min_image_extent, max_image_extent]`
interval: a requested dimension below the minimum yields the minimum, one
above the maximum yields the maximum, one within bounds is returned
unchanged, and the result always lies within the capability bounds. -/
theorem choose_swap_extent_spec (w ht mn1 mn2 mx1 mx2 : Nat)
    (hx : mn1 ≤ mx1) (hy : mn2 ≤ mx2) :
    (mn1 ≤ (choose_swap_extent w ht (mn1, mn2) (mx1, mx2)).1 ∧
     (choose_swap_extent w ht (mn1, mn2) (mx1, mx2)).1 ≤ mx1) ∧
    (mn2 ≤ (choose_swap_extent w ht (mn1, mn2) (mx1, mx2)).2 ∧
     (choose_swap_extent w ht (mn1, mn2) (mx1, mx2)).2 ≤ mx2) ∧
    (w < mn1 → (choose_swap_extent w ht (mn1, mn2) (mx1, mx2)).1 = mn1) ∧
    (mx1 < w → (choose_swap_extent w ht (mn1, mn2) (mx1, mx2)).1 = mx1) ∧
    (mn1 ≤ w → w ≤ mx1 → (choose_swap_extent w ht (mn1, mn2) (mx1, mx2)).1 = w) ∧
    (ht < mn2 → (choose_swap_extent w ht (mn1, mn2) (mx1, mx2)).2 = mn2) ∧
    (mx2 < ht → (choose_swap_extent w ht (mn1, mn2) (mx1, mx2)).2 = mx2) ∧
    (mn2 ≤ ht → ht ≤ mx2 → (choose_swap_extent w ht (mn1, mn2) (mx1, mx2)).2 = ht) := by
  simp only [choose_swap_extent, clamp]
  omega

theorem choose_swap_extent_spec_witness :
    (10 : Nat) ≤ 200 ∧ (choose_swap_extent 4000 50 (10, 10) (200, 60)).1 = 200 :=
  ⟨by decide, (choose_swap_extent_spec 4000 50 10 10 200 60 (by decide) (by decide)).2.2.2.1
    (by decide)⟩

lemma choose_swap_surface_format_total (l : List (Format × ColorSpace)) (hne : l ≠ []) :
    ∃ v, choose_swap_surface_format l = some v := by
  cases l with
  | nil => exact absurd rfl hne
  | cons a t =>
    cases hf : (a :: t).find? fun format =>
        format.1 == Format.B8G8R8A8_SRGB && format.2 == ColorSpace.SrgbNonLinear with
    | none => exact ⟨a, by simp [choose_swap_surface_format, hf]⟩
    | some x => exact ⟨x, by simp [choose_swap_surface_format, hf]⟩

lemma suitable_formats_ne_nil (d : PhysicalDeviceModel)
    (h : is_device_suitable d = true) : d.formats ≠ [] := by
  cases hk : d.khr_swapchain with
  | false => simp [is_device_suitable, hk] at h
  | true =>
    simp [is_device_suitable, hk, not_isEmpty_iff_ne_nil] at h
    tauto

/-- C7: for a non-empty supported list, the format chooser returns the
preferred pair `(B8G8R8A8_SRGB, SrgbNonLinear)` whenever it occurs anywhere
in the list, and otherwise returns the first pair of the list. -/
theorem choose_swap_surface_format_spec (l : List (Format × ColorSpace)) (hne : l ≠ []) :
    ((Format.B8G8R8A8_SRGB, ColorSpace.SrgbNonLinear) ∈ l →
      choose_swap_surface_format l =
        some (Format.B8G8R8A8_SRGB, ColorSpace.SrgbNonLinear)) ∧
    ((Format.B8G8R8A8_SRGB, ColorSpace.SrgbNonLinear) ∉ l →
      choose_swap_surface_format l = some (l.head hne)) := by
  constructor
  · intro hmem
    cases hf : l.find? fun format =>
        format.1 == Format.B8G8R8A8_SRGB && format.2 == ColorSpace.SrgbNonLinear with
    | none =>
      rw [List.find?_eq_none] at hf
      exact absurd (by simp) (hf _ hmem)
    | some x =>
      have hx := List.find?_some hf
      obtain ⟨x1, x2⟩ := x
      simp only [Bool.and_eq_true, beq_iff_eq] at hx
      obtain ⟨rfl, rfl⟩ := hx
      simp [choose_swap_surface_format, hf]
  · intro hnm
    cases hf : l.find? fun format =>
        format.1 == Format.B8G8R8A8_SRGB && format.2 == ColorSpace.SrgbNonLinear with
    | none =>
      cases l with
      | nil => exact absurd rfl hne
      | cons a t => simp [choose_swap_surface_format, hf]
    | some x =>
      have hx := List.find?_some hf
      obtain ⟨x1, x2⟩ := x
      simp only [Bool.and_eq_true, beq_iff_eq] at hx
      obtain ⟨rfl, rfl⟩ := hx
      exact absurd (List.mem_of_find?_eq_some hf) hnm

theorem choose_swap_surface_format_spec_witness :
    choose_swap_surface_format [(Format.R8G8B8A8_UNORM, ColorSpace.SrgbNonLinear)] =
      some (Format.R8G8B8A8_UNORM, ColorSpace.SrgbNonLinear) :=
  (choose_swap_surface_format_spec [(Format.R8G8B8A8_UNORM, ColorSpace.SrgbNonLinear)]
    (by decide)).2 (by decide)

/-- C10: on an empty supported-format list the chooser hits the
out-of-bounds index of element 0 (modelled by a `none` result); for every
non-empty list it returns a value, and in particular it returns a value on
the format list of every device that passed `is_device_suitable`, so the
panic branch is unreachable under the suitability precondition. -/
theorem choose_swap_surface_format_empty_panic :
    choose_swap_surface_format [] = none ∧
    (∀ l : List (Format × ColorSpace), l ≠ [] →
      ∃ v, choose_swap_surface_format l = some v) ∧
    (∀ d : PhysicalDeviceModel, is_device_suitable d = true →
      ∃ v, choose_swap_surface_format d.formats = some v) :=
  ⟨rfl, choose_swap_surface_format_total,
   fun d hd => choose_swap_surface_format_total d.formats (suitable_formats_ne_nil d hd)⟩

theorem choose_swap_surface_format_empty_panic_witness :
    ∃ v, choose_swap_surface_format
      (PhysicalDeviceModel.mk PhysicalDeviceType.DiscreteGpu true
        [QueueFamily.mk true true]
        [(Format.B8G8R8A8_UNORM, ColorSpace.SrgbNonLinear)]
        [PresentMode.Fifo]).formats = some v :=
  choose_swap_surface_format_empty_panic.2.2
    (PhysicalDeviceModel.mk PhysicalDeviceType.DiscreteGpu true
      [QueueFamily.mk true true]
      [(Format.B8G8R8A8_UNORM, ColorSpace.SrgbNonLinear)]
      [PresentMode.Fifo]) (by decide)

lemma pickLoop_first (l : List PhysicalDeviceModel) :
    ∀ i, (∃ d ∈ l, is_device_suitable d = true) →
      ∃ j, pickLoop l i = some (i + j) ∧
        (∃ d, l.get? j = some d ∧ is_device_suitable d = true) ∧
        ∀ m d', m < j → l.get? m = some d' → is_device_suitable d' = false := by
  induction l with
  | nil =>
    intro i h
    simp at h
  | cons a t ih =>
    intro i h
    by_cases ha : is_device_suitable a = true
    · refine ⟨0, by simp [pickLoop, ha], ⟨a, by simp, ha⟩, fun m d' hm _ => absurd hm (by omega)⟩
    · have haf : is_device_suitable a = false := by
        revert ha
        cases is_device_suitable a <;> simp
      have h' : ∃ d ∈ t, is_device_suitable d = true := by
        rcases h with ⟨d, hd, hsd⟩
        rcases List.mem_cons.mp hd with rfl | hdt
        · exact absurd hsd ha
        · exact ⟨d, hdt, hsd⟩
      rcases ih (i + 1) h' with ⟨j, hj1, hj2, hj3⟩
      refine ⟨j + 1, ?_, by simpa using hj2, ?_⟩
      · rw [show i + (j + 1) = i + 1 + j by omega]
        simpa [pickLoop, haf] using hj1
      · intro m d' hm hg
        cases m with
        | zero =>
          simp at hg
          rw [← hg]
          exact haf
        | succ m' =>
          exact hj3 m' d' (by omega) (by simpa using hg)

/-- C3: whenever the enumerated device list contains at least one suitable
device, `pick_physical_device` returns the enumeration index of the first
suitable device: the device at the returned index is suitable and every
device at a strictly smaller index is unsuitable. -/
theorem pick_physical_device_first (devices : List PhysicalDeviceModel)
    (h : ∃ d ∈ devices, is_device_suitable d = true) :
    ∃ i, pick_physical_device devices = some i ∧
      (∃ d, devices.get? i = some d ∧ is_device_suitable d = true) ∧
      ∀ j d', j < i → devices.get? j = some d' → is_device_suitable d' = false := by
  rcases pickLoop_first devices 0 h with ⟨j, h1, h2, h3⟩
  exact ⟨j, by simpa using h1, h2, h3⟩

theorem pick_physical_device_first_witness :
    ∃ i, pick_physical_device
        [PhysicalDeviceModel.mk PhysicalDeviceType.IntegratedGpu true
          [QueueFamily.mk true true]
          [(Format.B8G8R8A8_SRGB, ColorSpace.SrgbNonLinear)] [PresentMode.Fifo],
         PhysicalDeviceModel.mk PhysicalDeviceType.DiscreteGpu true
          [QueueFamily.mk true true]
          [(Format.B8G8R8A8_SRGB, ColorSpace.SrgbNonLinear)] [PresentMode.Fifo]] = some i ∧
      (∃ d, [PhysicalDeviceModel.mk PhysicalDeviceType.IntegratedGpu true
          [QueueFamily.mk true true]
          [(Format.B8G8R8A8_SRGB, ColorSpace.SrgbNonLinear)] [PresentMode.Fifo],
         PhysicalDeviceModel.mk PhysicalDeviceType.DiscreteGpu true
          [QueueFamily.mk true true]
          [(Format.B8G8R8A8_SRGB, ColorSpace.SrgbNonLinear)] [PresentMode.Fifo]].get? i =
            some d ∧ is_device_suitable d = true) ∧
      ∀ j d', j < i →
        [PhysicalDeviceModel.mk PhysicalDeviceType.IntegratedGpu true
          [QueueFamily.mk true true]
          [(Format.B8G8R8A8_SRGB, ColorSpace.SrgbNonLinear)] [PresentMode.Fifo],
         PhysicalDeviceModel.mk PhysicalDeviceType.DiscreteGpu true
          [QueueFamily.mk true true]
          [(Format.B8G8R8A8_SRGB, ColorSpace.SrgbNonLinear)] [PresentMode.Fifo]].get? j =
            some d' → is_device_suitable d' = false :=
  pick_physical_device_first _
    ⟨PhysicalDeviceModel.mk PhysicalDeviceType.DiscreteGpu true
      [QueueFamily.mk true true]
      [(Format.B8G8R8A8_SRGB, ColorSpace.SrgbNonLinear)] [PresentMode.Fifo],
     by simp, by decide⟩

lemma lastCapBefore_extend_false (capAt : Nat → Bool) (o : Option Nat) (n : Nat)
    (h : lastCapBefore capAt o n) (hn : capAt n = false) :
    lastCapBefore capAt o (n + 1) := by
  cases o with
  | none =>
    intro m hm
    rcases Nat.lt_succ_iff_lt_or_eq.mp hm with h' | rfl
    · exact h m h'
    · exact hn
  | some j =>
    obtain ⟨h1, h2, h3⟩ := h
    refine ⟨by omega, h2, fun m hjm hm => ?_⟩
    rcases Nat.lt_succ_iff_lt_or_eq.mp hm with h' | rfl
    · exact h3 m hjm h'
    · exact hn

lemma lastCapBefore_extend_true (capAt : Nat → Bool) (n : Nat) (hn : capAt n = true) :
    lastCapBefore capAt (some n) (n + 1) :=
  ⟨Nat.lt_succ_self n, hn, fun m h1 h2 => absurd h1 (by omega)⟩

lemma findQueueLoop_char (fams : List QueueFamily) :
    ∀ (rest : List QueueFamily) (i : Nat) (s : QueueFamilyIndices),
      (∀ k, rest.get? k = fams.get? (i + k)) →
      lastCapBefore (graphAt fams) s.graphics_family_id i →
      lastCapBefore (presAt fams) s.presentation_family_id i →
      (s.graphics_family_id = none ∨ s.presentation_family_id = none) →
      ∀ g p, findQueueLoop rest i s = ⟨some g, some p⟩ →
        graphAt fams g = true ∧ presAt fams p = true ∧
        (∀ m, g < m → m ≤ max g p → graphAt fams m = false) ∧
        (∀ m, p < m → m ≤ max g p → presAt fams m = false) ∧
        (∀ j, j < max g p →
          (∀ a, a ≤ j → graphAt fams a = false) ∨
          (∀ b, b ≤ j → presAt fams b = false)) := by
  intro rest
  induction rest with
  | nil =>
    intro i s hwin hg hp hinc g p heq
    simp only [findQueueLoop] at heq
    rcases hinc with h | h <;> rw [heq] at h <;> simp at h
  | cons f rest' ih =>
    intro i s hwin hg hp hinc g p heq
    have hfi : fams[i]? = some f := by simpa using (hwin 0).symm
    have hgAt : graphAt fams i = f.supports_graphics := by simp [graphAt, hfi]
    have hpAt : presAt fams i = f.supports_surface := by simp [presAt, hfi]
    have hwin' : ∀ k, rest'.get? k = fams.get? (i + 1 + k) := by
      intro k
      rw [show i + 1 + k = i + (k + 1) by omega]
      have hk := hwin (k + 1)
      simpa using hk
    rw [findQueueLoop] at heq
    cases hfg : f.supports_graphics with
    | true =>
      cases hfp : f.supports_surface with
      | true =>
        simp [hfg, hfp, QueueFamilyIndices.is_complete] at heq
        obtain ⟨h1, h2⟩ := heq
        refine ⟨?_, ?_, fun m hm1 hm2 => absurd hm1 (by omega),
          fun m hm1 hm2 => absurd hm1 (by omega), fun j hj => ?_⟩
        · rw [show g = i by omega, hgAt]
          exact hfg
        · rw [show p = i by omega, hpAt]
          exact hfp
        · rcases hinc with h | h
          · rw [h] at hg
            exact Or.inl fun a ha => hg a (by omega)
          · rw [h] at hp
            exact Or.inr fun b hb => hp b (by omega)
      | false =>
        cases hP : s.presentation_family_id with
        | some j =>
          rw [hP] at heq hp
          simp [hfg, hfp, QueueFamilyIndices.is_complete] at heq
          obtain ⟨h1, h2⟩ := heq
          have hG : s.graphics_family_id = none := by
            rcases hinc with h | h
            · exact h
            · rw [hP] at h
              exact absurd h (by simp)
          obtain ⟨hj1, hj2, hj3⟩ := hp
          refine ⟨?_, ?_, fun m hm1 hm2 => absurd hm1 (by omega), ?_, ?_⟩
          · rw [show g = i by omega, hgAt]
            exact hfg
          · rw [show p = j by omega]
            exact hj2
          · intro m hm1 hm2
            rcases Nat.lt_or_ge m i with h' | h'
            · exact hj3 m (by omega) h'
            · rw [show m = i by omega, hpAt]
              exact hfp
          · intro j' hj'
            rw [hG] at hg
            exact Or.inl fun a ha => hg a (by omega)
        | none =>
          rw [hP] at heq hp
          simp [hfg, hfp, QueueFamilyIndices.is_complete] at heq
          exact ih (i + 1) ⟨some i, none⟩ hwin'
            (lastCapBefore_extend_true _ i (by rw [hgAt]; exact hfg))
            (lastCapBefore_extend_false _ none i hp (by rw [hpAt]; exact hfp))
            (Or.inr rfl) g p heq
    | false =>
      cases hfp : f.supports_surface with
      | true =>
        cases hG : s.graphics_family_id with
        | some j =>
          rw [hG] at heq hg
          simp [hfg, hfp, QueueFamilyIndices.is_complete] at heq
          obtain ⟨h1, h2⟩ := heq
          have hPn : s.presentation_family_id = none := by
            rcases hinc with h | h
            · rw [hG] at h
              exact absurd h (by simp)
            · exact h
          obtain ⟨hj1, hj2, hj3⟩ := hg
          refine ⟨?_, ?_, ?_, fun m hm1 hm2 => absurd hm1 (by omega), ?_⟩
          · rw [show g = j by omega]
            exact hj2
          · rw [show p = i by omega, hpAt]
            exact hfp
          · intro m hm1 hm2
            rcases Nat.lt_or_ge m i with h' | h'
            · exact hj3 m (by omega) h'
            · rw [show m = i by omega, hgAt]
              exact hfg
          · intro j' hj'
            rw [hPn] at hp
            exact Or.inr fun b hb => hp b (by omega)
        | none =>
          rw [hG] at heq hg
          simp [hfg, hfp, QueueFamilyIndices.is_complete] at heq
          exact ih (i + 1) ⟨none, some i⟩ hwin'
            (lastCapBefore_extend_false _ none i hg (by rw [hgAt]; exact hfg))
            (lastCapBefore_extend_true _ i (by rw [hpAt]; exact hfp))
            (Or.inl rfl) g p heq
      | false =>
        rcases hinc with h | h
        · rw [h] at heq hg
          simp [hfg, hfp, QueueFamilyIndices.is_complete] at heq
          exact ih (i + 1) ⟨none, s.presentation_family_id⟩ hwin'
            (lastCapBefore_extend_false _ none i hg (by rw [hgAt]; exact hfg))
            (lastCapBefore_extend_false _ _ i hp (by rw [hpAt]; exact hfp))
            (Or.inl rfl) g p heq
        · rw [h] at heq hp
          simp [hfg, hfp, QueueFamilyIndices.is_complete] at heq
          exact ih (i + 1) ⟨s.graphics_family_id, none⟩ hwin'
            (lastCapBefore_extend_false _ _ i hg (by rw [hgAt]; exact hfg))
            (lastCapBefore_extend_false _ none i hp (by rw [hpAt]; exact hfp))
            (Or.inr rfl) g p heq

/-- C1 (amended): when the resolver returns a complete pair of indices
`(g, p)`, family `g` supports graphics and family `p` supports presentation;
each index is the position of the last capable family at or before the stop
point `max g p` (no later capable family occurs between the returned index
and the stop point); and the stop point is the first position at which both
a graphics-capable and a present-capable family have been seen: for every
strictly earlier position, one of the two capabilities has not yet occurred.
The scan therefore stops once both indices are set, but each returned index
is the most recently seen capable family, not the first one. -/
theorem find_queue_family_ids_spec (fams : List QueueFamily) (g p : Nat)
    (h : find_queue_family_ids fams = ⟨some g, some p⟩) :
    graphAt fams g = true ∧ presAt fams p = true ∧
    (∀ m, g < m → m ≤ max g p → graphAt fams m = false) ∧
    (∀ m, p < m → m ≤ max g p → presAt fams m = false) ∧
    (∀ j, j < max g p →
      (∀ a, a ≤ j → graphAt fams a = false) ∨
      (∀ b, b ≤ j → presAt fams b = false)) :=
  findQueueLoop_char fams fams 0 ⟨none, none⟩ (fun k => by simp)
    (fun m hm => absurd hm (by omega)) (fun m hm => absurd hm (by omega))
    (Or.inl rfl) g p h

theorem find_queue_family_ids_spec_witness :
    graphAt [QueueFamily.mk true true] 0 = true ∧
    presAt [QueueFamily.mk true true] 0 = true ∧
    (∀ m, 0 < m → m ≤ max 0 0 → graphAt [QueueFamily.mk true true] m = false) ∧
    (∀ m, 0 < m → m ≤ max 0 0 → presAt [QueueFamily.mk true true] m = false) ∧
    (∀ j, j < max 0 0 →
      (∀ a, a ≤ j → graphAt [QueueFamily.mk true true] a = false) ∨
      (∀ b, b ≤ j → presAt [QueueFamily.mk true true] b = false)) :=
  find_queue_family_ids_spec [QueueFamily.mk true true] 0 0 (by decide)

theorem find_queue_family_ids_counterexample :
    find_queue_family_ids [QueueFamily.mk true false, QueueFamily.mk true true] =
      QueueFamilyIndices.mk (some 1) (some 1) ∧
    graphAt [QueueFamily.mk true false, QueueFamily.mk true true] 0 = true ∧
    find_queue_family_ids [QueueFamily.mk true false, QueueFamily.mk true true] ≠
      QueueFamilyIndices.mk (some 0) (some 1) := by
  decide

lemma hashSetOrder_eq_of_eq (g : Nat) (order : List Nat)
    (h : isHashSetOrder g g order) : order = [g] := by
  obtain ⟨hnd, hmem⟩ := h
  cases order with
  | nil =>
    have := (hmem g).mpr (Or.inl rfl)
    simp at this
  | cons a t =>
    have ha : a = g := by
      have := (hmem a).mp (by simp)
      tauto
    subst ha
    cases t with
    | nil => rfl
    | cons b t' =>
      have hb : b = a := by
        have := (hmem b).mp (by simp)
        tauto
      subst hb
      simp at hnd

lemma hashSetOrder_eq_of_ne (g p : Nat) (order : List Nat) (hne : g ≠ p)
    (h : isHashSetOrder g p order) : order = [g, p] ∨ order = [p, g] := by
  obtain ⟨hnd, hmem⟩ := h
  have hg : g ∈ order := (hmem g).mpr (Or.inl rfl)
  have hp : p ∈ order := (hmem p).mpr (Or.inr rfl)
  cases order with
  | nil => simp at hg
  | cons a t =>
    have ha := (hmem a).mp (by simp)
    cases t with
    | nil =>
      simp at hg hp
      omega
    | cons b t' =>
      have hb := (hmem b).mp (by simp)
      have hab : a ≠ b := by
        simp [List.nodup_cons] at hnd
        tauto
      cases t' with
      | nil =>
        rcases ha with rfl | rfl <;> rcases hb with rfl | rfl
        · exact absurd rfl hab
        · exact Or.inl rfl
        · exact Or.inr rfl
        · exact absurd rfl hab
      | cons c t'' =>
        exfalso
        have hc := (hmem c).mp (by simp)
        have hca : c ≠ a := by
          simp [List.nodup_cons] at hnd
          tauto
        have hcb : c ≠ b := by
          simp [List.nodup_cons] at hnd
          tauto
        rcases ha with rfl | rfl <;> rcases hb with rfl | rfl <;>
          rcases hc with rfl | rfl <;> simp_all

/-- C4 (amended): the logical-device factory requests one queue per unique
family: a single `QueueCreateInfo` when the graphics and present families
coincide and two when they are distinct. When they coincide, both returned
handles alias the single queue of that shared family. When they are
distinct, the two returned handles are the queues of the two families in the
unspecified `HashSet` iteration order: either the graphics handle belongs to
the graphics family and the present handle to the present family, or the two
are swapped. -/
theorem create_logical_device_spec (g p : Nat) (order : List Nat)
    (h : isHashSetOrder g p order) :
    (g = p → order.length = 1 ∧ create_logical_device order = some (g, g)) ∧
    (g ≠ p → order.length = 2 ∧
      (create_logical_device order = some (g, p) ∨
       create_logical_device order = some (p, g))) := by
  constructor
  · intro hgp
    subst hgp
    rw [hashSetOrder_eq_of_eq g order h]
    exact ⟨rfl, rfl⟩
  · intro hne
    rcases hashSetOrder_eq_of_ne g p order hne h with rfl | rfl
    · exact ⟨rfl, Or.inl rfl⟩
    · exact ⟨rfl, Or.inr rfl⟩

theorem create_logical_device_spec_witness :
    ((0 : Nat) = 0 → ([0] : List Nat).length = 1 ∧
      create_logical_device [0] = some (0, 0)) ∧
    ((0 : Nat) ≠ 0 → ([0] : List Nat).length = 2 ∧
      (create_logical_device [0] = some (0, 0) ∨
       create_logical_device [0] = some (0, 0))) :=
  create_logical_device_spec 0 0 [0] ⟨by decide, fun x => by simp⟩

theorem create_logical_device_counterexample :
    isHashSetOrder 0 1 [1, 0] ∧
    create_logical_device [1, 0] = some (1, 0) ∧ (1 : Nat) ≠ 0 := by
  refine ⟨⟨by decide, fun x => ?_⟩, by decide, by decide⟩
  simp [List.mem_cons]
  tauto
